import Mathlib

/-!
Verification development for the git-visualizer analysis core
(src-tauri/src/git/branches.rs, src-tauri/src/git/commits.rs,
src-tauri/src/github.rs).

Rust strings are modelled as lists of characters (`Str`); the external
command gateway (the `git` and `gh` processes) is modelled by passing each
call's raw response as an explicit argument of type `Except GitError Str`
(for git calls) or as an oracle function (for per-item remote lookups).
Machine integers (`i32`, `i64`) are modelled as `Int` with the explicit
range checks that Rust's `str::parse` performs.
-/

abbrev Str := List Char

deriving instance DecidableEq for Except

/-- Error type mirroring `GitError` in src-tauri/src/git/cli.rs. -/
inductive GitError where
  | gitNotFound : GitError
  | notARepo : GitError
  | commandFailed : GitError
  | invalidUtf8 : GitError
  | invalidPath : GitError
deriving DecidableEq, Repr

/-- Rust `str::trim` (drop leading and trailing whitespace). -/
def trimChars (s : Str) : Str :=
  ((s.dropWhile Char.isWhitespace).reverse.dropWhile Char.isWhitespace).reverse

/-- Rust `str::strip_prefix`: `some` of the remainder when `pre` is a prefix. -/
def stripPre (pre s : Str) : Option Str :=
  if pre.isPrefixOf s then some (s.drop pre.length) else none

/-- Split at the first occurrence of `sep`: `some (before, after)`, or `none`
when `sep` does not occur. -/
def splitFirst (sep : Char) : Str → Option (Str × Str)
  | [] => none
  | c :: rest =>
    if c = sep then some ([], rest)
    else
      match splitFirst sep rest with
      | some (a, b) => some (c :: a, b)
      | none => none

/-- Rust `str::splitn(n, sep)` collected into a list. -/
def splitn (n : Nat) (sep : Char) (s : Str) : List Str :=
  match n with
  | 0 => []
  | 1 => [s]
  | n + 2 =>
    match splitFirst sep s with
    | none => [s]
    | some (a, b) => a :: splitn (n + 1) sep b

/-- Rust `str::split(sep)` (unbounded; keeps empty fragments). -/
def splitChar (sep : Char) : Str → List Str
  | [] => [[]]
  | c :: rest =>
    if c = sep then [] :: splitChar sep rest
    else
      match splitChar sep rest with
      | [] => [[c]]
      | t :: ts => (c :: t) :: ts

/-- Split on whitespace keeping empty fragments (helper for `split_whitespace`). -/
def splitWsRaw : Str → List Str
  | [] => [[]]
  | c :: rest =>
    if c.isWhitespace then [] :: splitWsRaw rest
    else
      match splitWsRaw rest with
      | [] => [[c]]
      | t :: ts => (c :: t) :: ts

/-- Rust `str::split_whitespace` collected into a list (maximal non-whitespace
runs; no empty tokens). -/
def split_whitespace (s : Str) : List Str :=
  (splitWsRaw s).filter (· ≠ [])

/-- Decimal value of a digit string (used by `parse_i32`). -/
def digitsToNat (s : Str) : Nat :=
  s.foldl (fun acc c => acc * 10 + (c.toNat - 48)) 0

/-- Core of Rust `str::parse::<i32>` after the optional sign has been
consumed: all-digit non-empty payload whose signed value fits in `i32`. -/
def parse_i32_core (sign : Int) (digits : Str) : Option Int :=
  if digits ≠ [] ∧ digits.all Char.isDigit then
    let v : Int := sign * (digitsToNat digits : Int)
    if -(2 ^ 31) ≤ v ∧ v ≤ 2 ^ 31 - 1 then some v else none
  else none

/-- Rust `str::parse::<i32>`: optional single sign, then decimal digits,
rejecting empty input, stray characters and values outside the `i32` range. -/
def parse_i32 (s : Str) : Option Int :=
  match s with
  | [] => none
  | c :: rest =>
    if c = '+' then parse_i32_core 1 rest
    else if c = '-' then parse_i32_core (-1) rest
    else parse_i32_core 1 (c :: rest)

/-- The `Branch` record of src-tauri/src/git/branches.rs. -/
structure Branch where
  name : Str
  commits_ahead : Int
  commits_behind : Int
  last_commit_date : Str
  last_commit_author : Str
  status : Str
  head_sha : Str
  diverged_from_sha : Option Str
  diverged_from_date : Option Str
deriving DecidableEq, Repr

/-- `calculate_status` from src-tauri/src/git/branches.rs.

The chrono timestamp parser and clock are passed in as an oracle
`parse_from_rfc3339` (returning a Unix time in seconds on success) and a
current time `now` (seconds); `chrono::Duration::num_days` is truncating
division of the signed difference in seconds by 86400, i.e. `Int.tdiv`. -/
def calculate_status (commits_behind : Int) (last_commit_date : Str)
    (parse_from_rfc3339 : Str → Option Int) (now : Int) : Str :=
  if commits_behind > 50 then "stale".data
  else if commits_behind > 10 then "conflict-risk".data
  else
    match parse_from_rfc3339 last_commit_date with
    | some commit_date =>
      let days_old := Int.tdiv (now - commit_date) 86400
      if days_old > 14 then "stale".data else "fresh".data
    | none => "fresh".data

/-- `get_ahead_behind` from src-tauri/src/git/branches.rs, with the raw
response of the `git rev-list --left-right --count base...branch` call passed
in.  Returns `(ahead, behind)` exactly as the source does: the first
whitespace token is bound to `behind`, the second to `ahead`. -/
def get_ahead_behind (rev_list_resp : Except GitError Str) :
    Except GitError (Int × Int) :=
  match rev_list_resp with
  | .error e => .error e
  | .ok output =>
    let parts := split_whitespace (trimChars output)
    let behind := (parts.head?.bind parse_i32).getD 0
    let ahead := ((parts.get? 1).bind parse_i32).getD 0
    .ok (ahead, behind)

/-- `get_fork_point` from src-tauri/src/git/branches.rs, with the raw
responses of the `git merge-base` call and the follow-up `git log -1` date
call passed in. -/
def get_fork_point (merge_base_resp date_resp : Except GitError Str) :
    Except GitError (Option Str × Option Str) :=
  match merge_base_resp with
  | .error e => .error e
  | .ok merge_base =>
    let sha := trimChars merge_base
    if sha = [] then .ok (none, none)
    else
      match date_resp with
      | .error e => .error e
      | .ok date_output => .ok (some sha, some (trimChars date_output))

/-- `get_branch_info` from src-tauri/src/git/branches.rs, with the raw
responses of its four gateway calls passed in (`git rev-list`, `git log -1`
on the branch, `git merge-base`, `git log -1` on the merge base), plus the
chrono oracle used by `calculate_status`. -/
def get_branch_info (name : Str)
    (rev_list_resp log_resp merge_base_resp merge_base_date_resp :
      Except GitError Str)
    (parse_from_rfc3339 : Str → Option Int) (now : Int) :
    Except GitError Branch :=
  match get_ahead_behind rev_list_resp with
  | .error e => .error e
  | .ok (commits_ahead, commits_behind) =>
    match log_resp with
    | .error e => .error e
    | .ok log_output =>
      let parts := splitChar '|' (trimChars log_output)
      let head_sha := parts.head?.getD []
      let last_commit_author := (parts.get? 1).getD "Unknown".data
      let last_commit_date := (parts.get? 2).getD []
      match get_fork_point merge_base_resp merge_base_date_resp with
      | .error e => .error e
      | .ok fork =>
        .ok { name := name
              commits_ahead := commits_ahead
              commits_behind := commits_behind
              last_commit_date := last_commit_date
              last_commit_author := last_commit_author
              status := calculate_status commits_behind last_commit_date
                parse_from_rfc3339 now
              head_sha := head_sha
              diverged_from_sha := fork.1
              diverged_from_date := fork.2 }

/-- `get_default_branch` from src-tauri/src/git/branches.rs, with the raw
response of the `git symbolic-ref refs/remotes/origin/HEAD` call passed in
and the success of the two `git rev-parse --verify` probes as booleans. -/
def get_default_branch (symref_resp : Except GitError Str)
    (main_exists master_exists : Bool) : Except GitError Str :=
  let fallback : Except GitError Str :=
    if main_exists then .ok "main".data
    else if master_exists then .ok "master".data
    else .ok "HEAD".data
  match symref_resp with
  | .ok output =>
    match stripPre "refs/remotes/origin/".data (trimChars output) with
    | some branch => .ok branch
    | none => fallback
  | .error _ => fallback

/-- The `MergeNode` record of src-tauri/src/git/commits.rs. -/
structure MergeNode where
  sha : Str
  full_sha : Str
  pr_number : Option Int
  pr_title : Option Str
  date : Str
deriving DecidableEq, Repr

/-- First rule of `parse_pr_info` (src-tauri/src/git/commits.rs): subject
starts with "Merge pull request #"; take digits up to the first space as the
number and the rest, with an optional leading "from ", as the title.  `none`
means the rule did not fire and control falls through. -/
def pr_rule1 (subject : Str) : Option (Option Int × Option Str) :=
  let pre := "Merge pull request #".data
  if pre.isPrefixOf subject then
    let rest := subject.drop pre.length
    let parts := splitn 2 ' ' rest
    match parts.head? with
    | some num_str =>
      match parse_i32 num_str with
      | some num =>
        let title := (parts.get? 1).map (fun s => (stripPre "from ".data s).getD s)
        some (some num, title)
      | none => none
    | none => none
  else none

/-- Substring search, Rust `str::find(pattern)`: index of the first
occurrence of `pat` in `s`. -/
def findSub (pat : Str) : Str → Option Nat
  | [] => if pat.isPrefixOf [] then some 0 else none
  | c :: rest =>
    if pat.isPrefixOf (c :: rest) then some 0
    else (findSub pat rest).map (· + 1)

/-- Second rule of `parse_pr_info`: a "(#digits)" token located at the first
occurrence of "(#"; the trimmed text before the parenthesis is the title,
with empty text giving an absent title. -/
def pr_rule2 (subject : Str) : Option (Option Int × Option Str) :=
  match findSub "(#".data subject with
  | some start =>
    match (subject.drop start).findIdx? (· = ')') with
    | some stop =>
      let num_str := (subject.drop (start + 2)).take (stop - 2)
      match parse_i32 num_str with
      | some num =>
        let title := trimChars (subject.take start)
        some (some num, if title = [] then none else some title)
      | none => none
    | none => none
  | none => none

/-- Third rule of `parse_pr_info`: scan for the first standalone "#digits"
run whose digits parse as an `i32`. -/
def pr_rule3 : Str → Option Int
  | [] => none
  | c :: rest =>
    if c = '#' then
      let ds := rest.takeWhile Char.isDigit
      if ds ≠ [] then
        match parse_i32 ds with
        | some num => some num
        | none => pr_rule3 rest
      else pr_rule3 rest
    else pr_rule3 rest

/-- `parse_pr_info` from src-tauri/src/git/commits.rs: the three extraction
rules tried in order, first success winning; no match leaves both fields
absent. -/
def parse_pr_info (subject : Str) : Option Int × Option Str :=
  match pr_rule1 subject with
  | some res => res
  | none =>
    match pr_rule2 subject with
    | some res => res
    | none =>
      match pr_rule3 subject with
      | some num => (some num, none)
      | none => (none, none)

/-- `parse_merge_commit` from src-tauri/src/git/commits.rs: a history line is
split into at most four pipe-separated fields; fewer than four fields is a
malformed line and yields `none`. -/
def parse_merge_commit (line : Str) : Option MergeNode :=
  let parts := splitn 4 '|' line
  if h : parts.length < 4 then none
  else
    let info := parse_pr_info (parts.get ⟨2, by omega⟩)
    some { full_sha := parts.get ⟨0, by omega⟩
           sha := parts.get ⟨1, by omega⟩
           pr_number := info.1
           pr_title := info.2
           date := parts.get ⟨3, by omega⟩ }

/-- The well-formed merge nodes obtained from one `git log --merges` call:
the gateway applies `--skip` and `--max-count` to the full newest-first
history (given here as its list of output lines), and the non-empty lines
that parse are kept. -/
def fetched_merge_nodes (history : List Str) (page per_page : Nat) :
    List MergeNode :=
  let skip := page * per_page
  let limit := per_page + 1
  (((history.drop skip).take limit).filter (· ≠ [])).filterMap
    parse_merge_commit

/-- `get_merge_commits` from src-tauri/src/git/commits.rs: fetch one record
beyond the page size; when strictly more than a page parsed, drop the extra
last record and report that more exist. -/
def get_merge_commits (history : List Str) (page per_page : Nat) :
    List MergeNode × Bool :=
  let nodes := fetched_merge_nodes history page per_page
  let has_more := nodes.length > per_page
  (if has_more then nodes.dropLast else nodes, has_more)

/-- Raw GitHub pull-request record as deserialized in src-tauri/src/github.rs
(`GitHubPR` with its nested `head.ref` and `user` fields flattened). -/
structure GitHubPR where
  number : Int
  title : Str
  state : Str
  merged_at : Option Str
  created_at : Str
  merge_commit_sha : Option Str
  commits : Option Int
  head_ref : Str
  user_login : Str
  user_avatar : Str
deriving DecidableEq, Repr

/-- The `MergedPR` record of src-tauri/src/github.rs. -/
structure MergedPR where
  number : Int
  title : Str
  branch_name : Str
  author_login : Str
  author_avatar : Str
  created_at : Str
  merged_at : Str
  merge_commit_sha : Str
  commit_count : Int
deriving DecidableEq, Repr

/-- The per-record body of the `filter_map` in `get_merged_prs`
(src-tauri/src/github.rs): a raw record converts only when both its merge
timestamp and merge-commit hash are present. -/
def pr_to_merged (pr : GitHubPR) : Option MergedPR :=
  match pr.merged_at, pr.merge_commit_sha with
  | some merged_at, some merge_commit_sha =>
    some { number := pr.number
           title := pr.title
           branch_name := pr.head_ref
           author_login := pr.user_login
           author_avatar := pr.user_avatar
           created_at := pr.created_at
           merged_at := merged_at
           merge_commit_sha := merge_commit_sha
           commit_count := pr.commits.getD 1 }
  | _, _ => none

/-- The `per_page` value `get_merged_prs` puts in its request URL:
`fetch_limit = limit * 2`. -/
def fetch_limit (limit : Nat) : Nat := limit * 2

/-- `get_merged_prs` from src-tauri/src/github.rs, downstream of the remote
call: the deserialized response records are filtered to those actually
merged and truncated to `limit`. -/
def get_merged_prs (limit : Nat) (response : List GitHubPR) : List MergedPR :=
  (response.filterMap pr_to_merged).take limit

/-- Rust `&sha[..7.min(sha.len())]`: the first seven characters of a hash,
or the whole hash when shorter. -/
def short_sha (sha : Str) : Str := sha.take 7

/-- `get_pr_commits` from src-tauri/src/github.rs: one worker per pull-request
number, each performing an independent remote lookup (modelled by the
`lookup` oracle, `none` meaning the call failed or its response did not
parse); failed lookups are silently skipped and the successes are joined, in
order, into the result mapping (modelled as an association list), each hash
truncated to its first seven characters.  The function itself always
returns `ok`. -/
def get_pr_commits (lookup : Int → Option (List Str))
    (pr_numbers : List Int) : Except Str (List (Int × List Str)) :=
  .ok (pr_numbers.filterMap
    (fun num => (lookup num).map (fun shas => (num, shas.map short_sha))))

/-- Concrete `Branch` value used to check `get_branch_info_nonneg`: the
record `get_branch_info` produces for the gateway responses "3 5" (counts),
"h|alice|2024-06-01" (last commit), "m" (merge base) and "2024-05-01" (merge
base date) with an always-failing timestamp parser. -/
def sample_branch : Branch :=
  { name := "feature".data
    commits_ahead := 5
    commits_behind := 3
    last_commit_date := "2024-06-01".data
    last_commit_author := "alice".data
    status := "fresh".data
    head_sha := "h".data
    diverged_from_sha := some "m".data
    diverged_from_date := some "2024-05-01".data }

/-- Concrete raw pull-request record with both merge fields present, used to
check `get_merged_prs_spec`. -/
def sample_pr_ok : GitHubPR :=
  { number := 1
    title := "t".data
    state := "closed".data
    merged_at := some "2024-06-01".data
    created_at := "2024-05-01".data
    merge_commit_sha := some "abc".data
    commits := some 2
    head_ref := "b".data
    user_login := "u".data
    user_avatar := "a".data }

/-- Concrete raw pull-request record with an absent merge timestamp, used to
check `get_merged_prs_spec`. -/
def sample_pr_bad : GitHubPR :=
  { sample_pr_ok with number := 2, merged_at := none }

/-- Concrete merge history of exactly three qualifying merge commits
(newest first), used to check pagination. -/
def sample_history : List Str :=
  ["f1|s1|Merge pull request #1 from a/b|2024-01-03".data,
   "f2|s2|Fix bug (#2)|2024-01-02".data,
   "f3|s3|See #3|2024-01-01".data]

/-- Concrete merge history whose fetched window contains two malformed lines
while a further well-formed merge commit exists beyond the window. -/
def sample_history_malformed : List Str :=
  ["f1|s1|ok (#1)|2024-01-04".data,
   "bad".data,
   "bad|2".data,
   "f4|s4|ok (#4)|2024-01-01".data]

/-! ## Helper lemmas -/

theorem length_filterMap_isSome {α β : Type} (f : α → Option β)
    (l : List α) :
    (l.filterMap f).length = (l.filter (fun a => (f a).isSome)).length := by
  induction l with
  | nil => rfl
  | cons a t ih => cases hf : f a <;> simp [List.filterMap_cons, hf, ih]

theorem filter_length_of_one_missing {α : Type} [DecidableEq α]
    (p : α → Bool) (l : List α) (bad : α) :
    l.Nodup → bad ∈ l → p bad = false → (∀ n ∈ l, n ≠ bad → p n = true) →
    (l.filter p).length = l.length - 1 := by
  induction l with
  | nil => intro _ h; cases h
  | cons a t ih =>
    intro hnd hmem hbad hoth
    rcases List.mem_cons.mp hmem with rfl | hmt
    · rw [List.filter_cons_of_neg (by simp [hbad])]
      have hsub : t.filter p = t := List.filter_eq_self.mpr (fun x hx =>
        hoth x (List.mem_cons_of_mem _ hx)
          (fun hxa => (List.nodup_cons.mp hnd).1 (hxa ▸ hx)))
      rw [hsub]
      simp
    · have hane : a ≠ bad := fun h => (List.nodup_cons.mp hnd).1 (h ▸ hmt)
      rw [List.filter_cons_of_pos (hoth a (List.mem_cons_self _ _) hane)]
      have hrec := ih (List.nodup_cons.mp hnd).2 hmt hbad
        (fun n hn hne => hoth n (List.mem_cons_of_mem _ hn) hne)
      have hlen : 1 ≤ t.length := List.length_pos.mpr (List.ne_nil_of_mem hmt)
      simp only [List.length_cons, hrec]
      omega

theorem get_fork_point_ok (mb mbd : Str) :
    ∃ fp, get_fork_point (.ok mb) (.ok mbd) = .ok fp := by
  unfold get_fork_point
  dsimp only
  by_cases h : trimChars mb = []
  · exact ⟨(none, none), by rw [if_pos h]⟩
  · exact ⟨(some (trimChars mb), some (trimChars mbd)), by rw [if_neg h]⟩

theorem parse_i32_core_one_nonneg (d : Str) (v : Int)
    (h : parse_i32_core 1 d = some v) : 0 ≤ v := by
  unfold parse_i32_core at h
  dsimp only at h
  split at h
  · split at h
    · have hv := Option.some.inj h
      have := Int.ofNat_nonneg (digitsToNat d)
      omega
    · exact absurd h (by simp)
  · exact absurd h (by simp)

theorem parse_i32_nonneg_of_no_minus (s : Str) (hs : '-' ∉ s) (v : Int)
    (h : parse_i32 s = some v) : 0 ≤ v := by
  cases s with
  | nil => exact absurd h (by simp [parse_i32])
  | cons c rest =>
    unfold parse_i32 at h
    dsimp only at h
    by_cases hp : c = '+'
    · rw [if_pos hp] at h
      exact parse_i32_core_one_nonneg rest v h
    · have hm : ¬ c = '-' := fun hc => hs (hc ▸ List.mem_cons_self c rest)
      rw [if_neg hp, if_neg hm] at h
      exact parse_i32_core_one_nonneg (c :: rest) v h

theorem get_ahead_behind_nonneg (out : Str)
    (hout : ∀ tok ∈ split_whitespace (trimChars out), '-' ∉ tok)
    (p : Int × Int) (hp : get_ahead_behind (.ok out) = .ok p) :
    0 ≤ p.1 ∧ 0 ≤ p.2 := by
  simp only [get_ahead_behind, Except.ok.injEq] at hp
  subst hp
  constructor
  · cases hg : (split_whitespace (trimChars out)).get? 1 with
    | none => simp [hg]
    | some s =>
      cases hps : parse_i32 s with
      | none => simp [hg, hps]
      | some v =>
        have := parse_i32_nonneg_of_no_minus s (hout s (List.get?_mem hg)) v hps
        simpa [hg, hps] using this
  · cases hg : (split_whitespace (trimChars out)).head? with
    | none => simp [hg]
    | some s =>
      cases hps : parse_i32 s with
      | none => simp [hg, hps]
      | some v =>
        have hsm := List.mem_of_mem_head? (a := s)
          (l := split_whitespace (trimChars out)) (by simp [hg])
        have := parse_i32_nonneg_of_no_minus s (hout s hsm) v hps
        simpa [hg, hps] using this

/-- `chrono::Duration::num_days` exceeds 14 exactly when the difference is at
least 15 whole days (1 296 000 seconds). -/
theorem tdiv_days_gt_iff (x : Int) : Int.tdiv x 86400 > 14 ↔ 15 * 86400 ≤ x := by
  constructor
  · intro h
    by_cases hx : 0 ≤ x
    · rw [Int.tdiv_eq_ediv hx (by norm_num)] at h
      have h15 : (15 : Int) ≤ x / 86400 := by omega
      have := (Int.le_ediv_iff_mul_le (by norm_num : (0 : Int) < 86400)).mp h15
      omega
    · exfalso
      have h1 : (0 : Int) ≤ -x := by omega
      have h2 := Int.tdiv_nonneg h1 (by norm_num : (0 : Int) ≤ 86400)
      rw [Int.neg_tdiv] at h2
      omega
  · intro h
    rw [Int.tdiv_eq_ediv (by omega) (by norm_num)]
    have : (15 : Int) ≤ x / 86400 :=
      (Int.le_ediv_iff_mul_le (by norm_num : (0 : Int) < 86400)).mpr (by omega)
    omega

theorem dropWhile_ws_eq (s : Str) (h : ∀ c ∈ s, c.isWhitespace = false) :
    s.dropWhile Char.isWhitespace = s := by
  cases s with
  | nil => rfl
  | cons c t =>
    rw [List.dropWhile_cons, if_neg]
    simp [h c (List.mem_cons_self c t)]

theorem trimChars_of_no_ws (s : Str) (h : ∀ c ∈ s, c.isWhitespace = false) :
    trimChars s = s := by
  unfold trimChars
  rw [dropWhile_ws_eq s h,
    dropWhile_ws_eq s.reverse (fun c hc => h c (List.mem_reverse.mp hc)),
    List.reverse_reverse]

theorem stripPre_append (pre b : Str) : stripPre pre (pre ++ b) = some b := by
  unfold stripPre
  rw [if_pos (List.isPrefixOf_iff_prefix.mpr (List.prefix_append _ _)),
    List.drop_left]

/-! ## Claim theorems -/

/-- Claim C1: branch status is a pure function of the behind count and the
last-commit timestamp, applied in priority order with first match winning:
behind > 50 is stale; otherwise behind > 10 is conflict-risk; otherwise a
commit at least 15 whole days old (chrono day difference > 14) is stale;
otherwise fresh, and an unparseable timestamp falls through to fresh. -/
theorem calculate_status_spec (cb : Int) (date : Str)
    (parse : Str → Option Int) (now t : Int) :
    (cb > 50 → calculate_status cb date parse now = "stale".data) ∧
    (cb ≤ 50 → cb > 10 →
      calculate_status cb date parse now = "conflict-risk".data) ∧
    (cb ≤ 10 → parse date = some t → 15 * 86400 ≤ now - t →
      calculate_status cb date parse now = "stale".data) ∧
    (cb ≤ 10 → parse date = some t → now - t < 15 * 86400 →
      calculate_status cb date parse now = "fresh".data) ∧
    (cb ≤ 10 → parse date = none →
      calculate_status cb date parse now = "fresh".data) := by
  unfold calculate_status
  refine ⟨fun h => ?_, fun h1 h2 => ?_, fun h1 h2 h3 => ?_,
    fun h1 h2 h3 => ?_, fun h1 h2 => ?_⟩
  · rw [if_pos h]
  · rw [if_neg (by omega), if_pos h2]
  · rw [if_neg (by omega), if_neg (by omega), h2]
    dsimp only
    rw [if_pos ((tdiv_days_gt_iff _).mpr h3)]
  · rw [if_neg (by omega), if_neg (by omega), h2]
    dsimp only
    rw [if_neg (fun hc => absurd ((tdiv_days_gt_iff _).mp hc) (by omega))]
  · rw [if_neg (by omega), if_neg (by omega), h2]

/-- Claim C1 witness: the four sample evaluations of the spec plus the
unparseable-timestamp case, obtained from `calculate_status_spec`. -/
theorem calculate_status_spec_check :
    calculate_status 60 "2024-06-01T00:00:00Z".data (fun _ => none) 0 =
      "stale".data ∧
    calculate_status 15 "2024-06-01T00:00:00Z".data (fun _ => some 0) 0 =
      "conflict-risk".data ∧
    calculate_status 3 "2024-05-12T00:00:00Z".data (fun _ => some 0)
      (20 * 86400) = "stale".data ∧
    calculate_status 3 "2024-05-31T00:00:00Z".data (fun _ => some 0)
      (1 * 86400) = "fresh".data ∧
    calculate_status 3 "not-a-date".data (fun _ => none) 0 = "fresh".data :=
  ⟨(calculate_status_spec 60 "2024-06-01T00:00:00Z".data (fun _ => none)
      0 0).1 (by norm_num),
   (calculate_status_spec 15 "2024-06-01T00:00:00Z".data (fun _ => some 0)
      0 0).2.1 (by norm_num) (by norm_num),
   (calculate_status_spec 3 "2024-05-12T00:00:00Z".data (fun _ => some 0)
      (20 * 86400) 0).2.2.1 (by norm_num) rfl (by norm_num),
   (calculate_status_spec 3 "2024-05-31T00:00:00Z".data (fun _ => some 0)
      (1 * 86400) 0).2.2.2.1 (by norm_num) rfl (by norm_num),
   (calculate_status_spec 3 "not-a-date".data (fun _ => none)
      0 0).2.2.2.2 (by norm_num) rfl⟩

/-- Claim C7: `get_default_branch` is total (always returns a branch name,
never a failure) and applies the fallback chain: the remote's symbolic
default head when resolvable, else "main", else "master", else "HEAD". -/
theorem get_default_branch_spec (symref : Except GitError Str)
    (main_exists master_exists : Bool) (b : Str) (e : GitError) :
    (∃ name, get_default_branch symref main_exists master_exists = .ok name) ∧
    ((∀ c ∈ b, c.isWhitespace = false) →
      get_default_branch (.ok ("refs/remotes/origin/".data ++ b))
        main_exists master_exists = .ok b) ∧
    (get_default_branch (.error e) true master_exists = .ok "main".data) ∧
    (get_default_branch (.error e) false true = .ok "master".data) ∧
    (get_default_branch (.error e) false false = .ok "HEAD".data) := by
  refine ⟨?_, fun h => ?_, by simp [get_default_branch],
    by simp [get_default_branch], by simp [get_default_branch]⟩
  · cases symref with
    | ok output =>
      cases hs : stripPre "refs/remotes/origin/".data (trimChars output) with
      | some br => exact ⟨br, by simp [get_default_branch, hs]⟩
      | none =>
        by_cases hm : main_exists
        · exact ⟨"main".data, by simp [get_default_branch, hs, hm]⟩
        · by_cases hM : master_exists
          · exact ⟨"master".data, by simp [get_default_branch, hs, hm, hM]⟩
          · exact ⟨"HEAD".data, by simp [get_default_branch, hs, hm, hM]⟩
    | error e' =>
      by_cases hm : main_exists
      · exact ⟨"main".data, by simp [get_default_branch, hm]⟩
      · by_cases hM : master_exists
        · exact ⟨"master".data, by simp [get_default_branch, hm, hM]⟩
        · exact ⟨"HEAD".data, by simp [get_default_branch, hm, hM]⟩
  · have hall : ∀ c ∈ "refs/remotes/origin/".data ++ b,
        c.isWhitespace = false := by
      intro c hc
      rcases List.mem_append.mp hc with h1 | h2
      · revert h1
        have : ∀ c ∈ "refs/remotes/origin/".data, c.isWhitespace = false := by
          decide
        exact this c
      · exact h c h2
    simp only [get_default_branch]
    rw [trimChars_of_no_ws _ hall, stripPre_append]

/-- Claim C7 witness: the fallback chain evaluated at concrete inputs via
`get_default_branch_spec`. -/
theorem get_default_branch_spec_check :
    get_default_branch (.ok ("refs/remotes/origin/".data ++ "develop".data))
      false false = .ok "develop".data ∧
    get_default_branch (.error .commandFailed) true false = .ok "main".data ∧
    get_default_branch (.error .commandFailed) false true =
      .ok "master".data ∧
    get_default_branch (.error .commandFailed) false false =
      .ok "HEAD".data :=
  ⟨(get_default_branch_spec (.ok ("refs/remotes/origin/".data ++
      "develop".data)) false false "develop".data .commandFailed).2.1
      (by decide),
   (get_default_branch_spec (.error .commandFailed) true false []
      .commandFailed).2.2.1,
   (get_default_branch_spec (.error .commandFailed) false true []
      .commandFailed).2.2.2.1,
   (get_default_branch_spec (.error .commandFailed) false false []
      .commandFailed).2.2.2.2⟩

/-- Claim C4: for a gateway three-dot range response of two
whitespace-separated counts, the first count becomes the Branch's
commits-behind and the second its commits-ahead (no mirroring); a count that
is missing or fails to parse defaults to 0, and the per-branch computation
never fails because of the counts. -/
theorem get_ahead_behind_spec (out s1 s2 : Str) :
    (split_whitespace (trimChars out) = [s1, s2] →
      get_ahead_behind (.ok out) =
        .ok ((parse_i32 s2).getD 0, (parse_i32 s1).getD 0)) ∧
    (split_whitespace (trimChars out) = [s1] →
      get_ahead_behind (.ok out) = .ok (0, (parse_i32 s1).getD 0)) ∧
    (∃ counts, get_ahead_behind (.ok out) = .ok counts) ∧
    (split_whitespace (trimChars out) = [s1, s2] →
      ∀ (log mb mbd : Str) (parse : Str → Option Int) (now : Int)
        (name : Str),
        ∃ b, get_branch_info name (.ok out) (.ok log) (.ok mb) (.ok mbd)
            parse now = .ok b ∧
          b.commits_behind = (parse_i32 s1).getD 0 ∧
          b.commits_ahead = (parse_i32 s2).getD 0) := by
  refine ⟨fun h => by simp [get_ahead_behind, h],
    fun h => by simp [get_ahead_behind, h], ⟨_, rfl⟩, fun h => ?_⟩
  intro log mb mbd parse now name
  obtain ⟨fp, hfp⟩ := get_fork_point_ok mb mbd
  have hab : get_ahead_behind (.ok out) =
      .ok ((parse_i32 s2).getD 0, (parse_i32 s1).getD 0) := by
    simp [get_ahead_behind, h]
  simp only [get_branch_info, hab, hfp]
  exact ⟨_, rfl, rfl, rfl⟩

/-- Claim C4 witness: the concrete response "3 5" maps to commits-behind 3
and commits-ahead 5, a missing second count defaults to 0, and an
unparseable first count defaults to 0 without failing. -/
theorem get_ahead_behind_spec_check :
    get_ahead_behind (.ok "3 5".data) = .ok (5, 3) ∧
    get_ahead_behind (.ok "7".data) = .ok (0, 7) ∧
    get_ahead_behind (.ok "x 9".data) = .ok (9, 0) := by
  refine ⟨?_, ?_, ?_⟩
  · rw [(get_ahead_behind_spec "3 5".data "3".data "5".data).1 (by decide)]
    decide
  · rw [(get_ahead_behind_spec "7".data "7".data []).2.1 (by decide)]
    decide
  · rw [(get_ahead_behind_spec "x 9".data "x".data "9".data).1 (by decide)]
    decide

/-- Claim C6: when the common-ancestor query yields a success response whose
trimmed text is empty (no common ancestor, disjoint histories), both
fork-point fields are `none` and the branch computation still succeeds. -/
theorem get_fork_point_spec (mb_out : Str) (date_resp : Except GitError Str)
    (h : trimChars mb_out = []) :
    get_fork_point (.ok mb_out) date_resp = .ok (none, none) ∧
    ∀ (rev log : Str) (parse : Str → Option Int) (now : Int) (name : Str),
      ∃ b, get_branch_info name (.ok rev) (.ok log) (.ok mb_out) date_resp
          parse now = .ok b ∧
        b.diverged_from_sha = none ∧ b.diverged_from_date = none := by
  have h1 : get_fork_point (.ok mb_out) date_resp = .ok (none, none) := by
    unfold get_fork_point
    dsimp only
    rw [if_pos h]
  refine ⟨h1, fun rev log parse now name => ?_⟩
  simp only [get_branch_info, get_ahead_behind, h1]
  exact ⟨_, rfl, rfl, rfl⟩

/-- Claim C6 witness: an empty merge-base response produces absent fork-point
fields even when the date query would have failed. -/
theorem get_fork_point_spec_check :
    trimChars "  ".data = [] ∧
    get_fork_point (.ok "  ".data) (.error .commandFailed) =
      .ok (none, none) :=
  ⟨by decide, (get_fork_point_spec "  ".data (.error .commandFailed)
    (by decide)).1⟩

/-- Claim C9 counterexample: the claim quantifies over any gateway response,
but a response of "-5 -3" parses to negative counts, so the produced Branch
violates commitsAhead >= 0 and commitsBehind >= 0. -/
theorem get_branch_info_negative_counts_cex :
    (get_branch_info "feature".data (.ok "-5 -3".data)
      (.ok "h|alice|2024-06-01".data) (.ok "m".data) (.ok "2024-05-01".data)
      (fun _ => none) 0).toOption.map Branch.commits_ahead = some (-3) ∧
    (get_branch_info "feature".data (.ok "-5 -3".data)
      (.ok "h|alice|2024-06-01".data) (.ok "m".data) (.ok "2024-05-01".data)
      (fun _ => none) 0).toOption.map Branch.commits_behind = some (-5) ∧
    ¬ (0 : Int) ≤ -3 ∧ ¬ (0 : Int) ≤ -5 :=
  ⟨by decide, by decide, by decide, by decide⟩

/-- Claim C9 (amended): for every Branch the analyzer produces from a
count response whose whitespace tokens contain no minus sign (as the
underlying `git rev-list --count` query emits), commitsAhead >= 0 and
commitsBehind >= 0. -/
theorem get_branch_info_nonneg (out : Str)
    (hout : ∀ tok ∈ split_whitespace (trimChars out), '-' ∉ tok) :
    ∀ (log mb mbd : Str) (parse : Str → Option Int) (now : Int) (name : Str)
      (b : Branch),
      get_branch_info name (.ok out) (.ok log) (.ok mb) (.ok mbd) parse now =
        .ok b →
      0 ≤ b.commits_ahead ∧ 0 ≤ b.commits_behind := by
  intro log mb mbd parse now name b hb
  obtain ⟨fp, hfp⟩ := get_fork_point_ok mb mbd
  cases habE : get_ahead_behind (.ok out) with
  | error e => simp [get_ahead_behind] at habE
  | ok p =>
    obtain ⟨pa, pb⟩ := p
    have hnn := get_ahead_behind_nonneg out hout (pa, pb) habE
    simp only [get_branch_info, habE, hfp, Except.ok.injEq] at hb
    subst hb
    exact hnn

/-- Claim C9 witness: the amended theorem evaluated on the count response
"3 5". -/
theorem get_branch_info_nonneg_check :
    get_branch_info "feature".data (.ok "3 5".data)
      (.ok "h|alice|2024-06-01".data) (.ok "m".data) (.ok "2024-05-01".data)
      (fun _ => none) 0 = .ok sample_branch ∧
    0 ≤ sample_branch.commits_ahead ∧ 0 ≤ sample_branch.commits_behind := by
  have heq : get_branch_info "feature".data (.ok "3 5".data)
      (.ok "h|alice|2024-06-01".data) (.ok "m".data) (.ok "2024-05-01".data)
      (fun _ => none) 0 = .ok sample_branch := by decide
  exact ⟨heq, get_branch_info_nonneg "3 5".data (by decide)
    "h|alice|2024-06-01".data "m".data "2024-05-01".data (fun _ => none) 0
    "feature".data sample_branch heq⟩

/-- Claim C5: getMergedPullRequests requests 2*limit closed pull requests,
keeps only records with both a merge timestamp and a merge-commit hash, and
truncates to at most limit records; a raw record without a merge timestamp
never converts and is never present in the output. -/
theorem get_merged_prs_spec (limit : Nat) (response : List GitHubPR) :
    fetch_limit limit = 2 * limit ∧
    (get_merged_prs limit response).length ≤ limit ∧
    (∀ m ∈ get_merged_prs limit response, ∃ pr ∈ response,
      pr_to_merged pr = some m ∧ pr.merged_at = some m.merged_at ∧
      pr.merge_commit_sha = some m.merge_commit_sha) ∧
    (∀ pr ∈ response, pr.merged_at = none → pr_to_merged pr = none) := by
  refine ⟨by simp [fetch_limit, Nat.mul_comm],
    by unfold get_merged_prs; exact List.length_take_le _ _, ?_, ?_⟩
  · intro m hm
    have hm2 : m ∈ response.filterMap pr_to_merged :=
      List.mem_of_mem_take (by simpa [get_merged_prs] using hm)
    obtain ⟨pr, hpr, hconv⟩ := List.mem_filterMap.mp hm2
    refine ⟨pr, hpr, hconv, ?_⟩
    unfold pr_to_merged at hconv
    cases hma : pr.merged_at with
    | none => rw [hma] at hconv; simp at hconv
    | some ma =>
      cases hmc : pr.merge_commit_sha with
      | none => rw [hma, hmc] at hconv; simp at hconv
      | some mc =>
        rw [hma, hmc] at hconv
        obtain rfl := Option.some.inj hconv
        exact ⟨rfl, rfl⟩
  · intro pr hpr hnone
    unfold pr_to_merged
    rw [hnone]

/-- Claim C5 witness: with limit 1 and a two-record response whose first
record lacks a merge timestamp, the output stays within the limit and the
timestamp-less record does not convert. -/
theorem get_merged_prs_spec_check :
    (get_merged_prs 1 [sample_pr_bad, sample_pr_ok]).length ≤ 1 ∧
    pr_to_merged sample_pr_bad = none :=
  ⟨(get_merged_prs_spec 1 [sample_pr_bad, sample_pr_ok]).2.1,
   (get_merged_prs_spec 1 [sample_pr_bad, sample_pr_ok]).2.2.2
     sample_pr_bad (by decide) rfl⟩

/-- Claim C8: getPullRequestCommitShas always returns a success mapping; a
number whose lookup fails is simply absent (with N distinct numbers and one
failure the mapping has exactly N-1 entries), and each successful entry maps
its number to its ordered hash list truncated to the first 7 characters (or
fewer when a hash is shorter). -/
theorem get_pr_commits_spec (lookup : Int → Option (List Str))
    (nums : List Int) (bad : Int) :
    (∃ m, get_pr_commits lookup nums = .ok m) ∧
    (∀ m, get_pr_commits lookup nums = .ok m →
      (∀ p ∈ m, ∃ raw, lookup p.1 = some raw ∧ p.2 = raw.map short_sha) ∧
      m.length = (nums.filter (fun n => (lookup n).isSome)).length) ∧
    (nums.Nodup → bad ∈ nums → lookup bad = none →
      (∀ n ∈ nums, n ≠ bad → (lookup n).isSome = true) →
      ∀ m, get_pr_commits lookup nums = .ok m →
        m.length = nums.length - 1) ∧
    (∀ sha, (short_sha sha).length = min 7 sha.length) := by
  have hpred : (fun n => ((lookup n).map
      (fun shas => (n, shas.map short_sha))).isSome) =
      fun n => (lookup n).isSome := by
    funext n
    cases lookup n <;> rfl
  refine ⟨⟨_, rfl⟩, ?_, ?_, fun sha => by simp [short_sha, List.length_take]⟩
  · intro m hm
    obtain rfl := Except.ok.inj hm
    constructor
    · intro p hp
      obtain ⟨num, hmem, heq⟩ := List.mem_filterMap.mp hp
      cases hlk : lookup num with
      | none => rw [hlk] at heq; simp at heq
      | some raw =>
        rw [hlk] at heq
        obtain rfl := Option.some.inj heq
        exact ⟨raw, hlk, rfl⟩
    · rw [length_filterMap_isSome]
      congr 1
      rw [show (fun n => ((lookup n).map
        (fun shas => (n, shas.map short_sha))).isSome) =
        fun n => (lookup n).isSome from hpred]
  · intro hnd hmem hbad hoth m hm
    obtain rfl := Except.ok.inj hm
    rw [length_filterMap_isSome]
    rw [show (fun n => ((lookup n).map
      (fun shas => (n, shas.map short_sha))).isSome) =
      fun n => (lookup n).isSome from hpred]
    exact filter_length_of_one_missing _ nums bad hnd hmem
      (by simp [hbad]) hoth

/-- Claim C8 witness: three distinct numbers with the lookup failing on the
middle one yield a two-entry mapping with 7-character hashes, no overall
error. -/
theorem get_pr_commits_spec_check :
    get_pr_commits
      (fun n => if n = 2 then none else some ["abcdefghij".data, "xy".data])
      [1, 2, 3] =
      .ok [(1, ["abcdefg".data, "xy".data]),
           (3, ["abcdefg".data, "xy".data])] ∧
    ([(1, ["abcdefg".data, "xy".data]),
      (3, ["abcdefg".data, "xy".data])] : List (Int × List Str)).length =
      [(1 : Int), 2, 3].length - 1 := by
  refine ⟨by decide, ?_⟩
  exact (get_pr_commits_spec
    (fun n => if n = 2 then none else some ["abcdefghij".data, "xy".data])
    [1, 2, 3] 2).2.2.1 (by decide) (by decide) (by decide)
    (by decide) _ (by decide)

/-- Claim C3: getMergeNodes skips page*perPage records and fetches
perPage+1; when the fetched count exceeds perPage it trims to exactly
perPage records with hasMore = true, otherwise it returns all fetched
records with hasMore = false; the page never exceeds perPage records.  On a
history of exactly 3 qualifying merge commits with perPage = 2, page 0
gives 2 records and hasMore = true, page 1 gives 1 record and
hasMore = false. -/
theorem get_merge_commits_spec (history : List Str) (page s : Nat) :
    ((get_merge_commits history page s).1.length ≤ s) ∧
    ((get_merge_commits history page s).2 = true ↔
      (fetched_merge_nodes history page s).length > s) ∧
    ((get_merge_commits history page s).2 = true →
      (get_merge_commits history page s).1.length = s ∧
      (get_merge_commits history page s).1 =
        (fetched_merge_nodes history page s).dropLast) ∧
    ((get_merge_commits history page s).2 = false →
      (get_merge_commits history page s).1 =
        fetched_merge_nodes history page s) ∧
    ((get_merge_commits sample_history 0 2).1.length = 2 ∧
      (get_merge_commits sample_history 0 2).2 = true) ∧
    ((get_merge_commits sample_history 1 2).1.length = 1 ∧
      (get_merge_commits sample_history 1 2).2 = false) := by
  have hF : (fetched_merge_nodes history page s).length ≤ s + 1 :=
    le_trans (List.length_filterMap_le _ _)
      (le_trans (List.length_filter_le _ _) (List.length_take_le _ _))
  refine ⟨?_, ?_, ?_, ?_, ⟨by decide, by decide⟩, ⟨by decide, by decide⟩⟩
  · by_cases hm : (fetched_merge_nodes history page s).length > s
    · simp [get_merge_commits, hm, List.length_dropLast]
      omega
    · simp [get_merge_commits, hm]
      omega
  · by_cases hm : (fetched_merge_nodes history page s).length > s <;>
      simp [get_merge_commits, hm]
  · intro h
    have hm : (fetched_merge_nodes history page s).length > s := by
      by_contra hc
      simp [get_merge_commits, hc] at h
    constructor
    · simp [get_merge_commits, hm, List.length_dropLast]
      omega
    · simp [get_merge_commits, hm]
  · intro h
    have hm : ¬ (fetched_merge_nodes history page s).length > s := by
      by_contra hc
      simp [get_merge_commits, hc] at h
    simp [get_merge_commits, hm]

/-- Claim C3 witness: the hypothesis-bearing pagination facts evaluated on
the three-commit history with perPage = 2. -/
theorem get_merge_commits_spec_check :
    (get_merge_commits sample_history 0 2).1 =
      (fetched_merge_nodes sample_history 0 2).dropLast ∧
    (get_merge_commits sample_history 1 2).1 =
      fetched_merge_nodes sample_history 1 2 :=
  ⟨((get_merge_commits_spec sample_history 0 2).2.2.1 (by decide)).2,
   (get_merge_commits_spec sample_history 1 2).2.2.2.1 (by decide)⟩

/-- Claim C10: a history line with fewer than four pipe-separated fields is
silently discarded, and page content plus the hasMore flag are computed only
from the well-formed lines: on a window holding two malformed lines the call
returns fewer than perPage records with hasMore = false even though a
further well-formed merge commit exists past the fetched window. -/
theorem parse_merge_commit_malformed_spec (line : Str)
    (h : (splitn 4 '|' line).length < 4) :
    parse_merge_commit line = none ∧
    (get_merge_commits sample_history_malformed 0 2).1.length < 2 ∧
    (get_merge_commits sample_history_malformed 0 2).2 = false ∧
    0 * 2 + (2 + 1) < sample_history_malformed.length ∧
    (parse_merge_commit (sample_history_malformed.getD 3 [])).isSome =
      true := by
  refine ⟨?_, by decide, by decide, by decide, by decide⟩
  unfold parse_merge_commit
  dsimp only
  rw [dif_pos h]

/-- Claim C10 witness: the malformed line "a|b" (two fields) parses to
none. -/
theorem parse_merge_commit_malformed_check :
    (splitn 4 '|' "a|b".data).length < 4 ∧
    parse_merge_commit "a|b".data = none :=
  ⟨by decide, (parse_merge_commit_malformed_spec "a|b".data (by decide)).1⟩

theorem not_mem_of_all_digits (ds : Str) (h : ds.all Char.isDigit = true)
    (c : Char) (hc : c.isDigit = false) : c ∉ ds := by
  intro hm
  have hd := List.all_eq_true.mp h c hm
  rw [hc] at hd
  exact absurd hd (by decide)

theorem splitFirst_append (sep : Char) (ds rest : Str) (h : sep ∉ ds) :
    splitFirst sep (ds ++ sep :: rest) = some (ds, rest) := by
  induction ds with
  | nil => simp [splitFirst]
  | cons c t ih =>
    have hc : ¬ c = sep := fun hcs => h (hcs ▸ List.mem_cons_self c t)
    simp [splitFirst, hc, ih (fun hm => h (List.mem_cons_of_mem _ hm))]

theorem parse_i32_digits (ds : Str) (h1 : ds ≠ [])
    (h2 : ds.all Char.isDigit = true)
    (h3 : (digitsToNat ds : Int) ≤ 2 ^ 31 - 1) :
    parse_i32 ds = some ((digitsToNat ds : Int)) := by
  cases ds with
  | nil => exact absurd rfl h1
  | cons c tl =>
    have hc : c.isDigit = true := List.all_eq_true.mp h2 c
      (List.mem_cons_self c tl)
    have hplus : ¬ c = '+' := fun h => by
      rw [h] at hc; exact absurd hc (by decide)
    have hminus : ¬ c = '-' := fun h => by
      rw [h] at hc; exact absurd hc (by decide)
    unfold parse_i32
    dsimp only
    rw [if_neg hplus, if_neg hminus]
    unfold parse_i32_core
    rw [if_pos ⟨by simp, h2⟩]
    dsimp only
    rw [if_pos ⟨by have := Int.ofNat_nonneg (digitsToNat (c :: tl)); omega,
      by omega⟩]
    simp

theorem findIdx_first (p : Char → Bool) (l : Str) (x : Char) (r : Str)
    (hl : ∀ c ∈ l, p c = false) (hx : p x = true) :
    ∀ i, List.findIdx? p (l ++ x :: r) i = some (l.length + i) := by
  induction l with
  | nil =>
    intro i
    simp [List.findIdx?_cons, hx]
  | cons a t ih =>
    intro i
    rw [List.cons_append, List.findIdx?_cons,
      if_neg (by simp [hl a (List.mem_cons_self a t)]),
      ih (fun c hc => hl c (List.mem_cons_of_mem _ hc)) (i + 1)]
    congr 1
    simp only [List.length_cons]
    omega

theorem pr_rule1_none (subject : Str)
    (h : ¬ "Merge pull request #".data <+: subject) :
    pr_rule1 subject = none := by
  unfold pr_rule1
  dsimp only
  rw [if_neg (fun hp => h (List.isPrefixOf_iff_prefix.mp hp))]

theorem pr_rule1_match (ds rest : Str) (h1 : ds ≠ [])
    (h2 : ds.all Char.isDigit = true)
    (h3 : (digitsToNat ds : Int) ≤ 2 ^ 31 - 1) :
    pr_rule1 ("Merge pull request #".data ++ (ds ++ ' ' :: rest)) =
      some (some ((digitsToNat ds : Int)),
        some ((stripPre "from ".data rest).getD rest)) := by
  unfold pr_rule1
  dsimp only
  rw [if_pos (List.isPrefixOf_iff_prefix.mpr (List.prefix_append _ _)),
    List.drop_left]
  have hsf := splitFirst_append ' ' ds rest
    (not_mem_of_all_digits ds h2 ' ' (by decide))
  simp [splitn, hsf, parse_i32_digits ds h1 h2 h3]

theorem pr_rule2_none (subject : Str)
    (h : findSub "(#".data subject = none) : pr_rule2 subject = none := by
  unfold pr_rule2
  rw [h]

theorem pr_rule2_match (before ds after : Str)
    (hfind : findSub "(#".data
      (before ++ '(' :: '#' :: (ds ++ ')' :: after)) = some before.length)
    (h1 : ds ≠ []) (h2 : ds.all Char.isDigit = true)
    (h3 : (digitsToNat ds : Int) ≤ 2 ^ 31 - 1) :
    pr_rule2 (before ++ '(' :: '#' :: (ds ++ ')' :: after)) =
      some (some ((digitsToNat ds : Int)),
        if trimChars before = [] then none else some (trimChars before)) := by
  unfold pr_rule2
  rw [hfind]
  dsimp only
  rw [List.drop_left]
  have hnp : ∀ c ∈ '(' :: '#' :: ds, decide (c = ')') = false := by
    intro c hc
    rcases List.mem_cons.mp hc with rfl | hc2
    · decide
    rcases List.mem_cons.mp hc2 with rfl | hc3
    · decide
    · have hd := List.all_eq_true.mp h2 c hc3
      simp only [decide_eq_false_iff_not]
      intro hcp
      rw [hcp] at hd
      exact absurd hd (by decide)
  have h0 := findIdx_first (fun c => c = ')') ('(' :: '#' :: ds) ')' after
    hnp (by simp) 0
  rw [show ('(' :: '#' :: ds) ++ ')' :: after =
    '(' :: '#' :: (ds ++ ')' :: after) by simp] at h0
  have hlen : ('(' :: '#' :: ds).length + 0 = 2 + ds.length := by
    simp only [List.length_cons]
    omega
  rw [hlen] at h0
  rw [h0]
  dsimp only
  have hdrop2 : (before ++ '(' :: '#' :: (ds ++ ')' :: after)).drop
      (before.length + 2) = ds ++ ')' :: after := by
    rw [show before ++ '(' :: '#' :: (ds ++ ')' :: after) =
      (before ++ ['(', '#']) ++ (ds ++ ')' :: after) by simp]
    exact List.drop_left' (by simp)
  have htake : (ds ++ ')' :: after).take (2 + ds.length - 2) = ds := by
    rw [show 2 + ds.length - 2 = ds.length by omega]
    exact List.take_left ds (')' :: after)
  rw [hdrop2, htake, parse_i32_digits ds h1 h2 h3]
  dsimp only
  rw [List.take_left' rfl]

theorem pr_rule3_cons_ne (c : Char) (l : Str) (hc : ¬ c = '#') :
    pr_rule3 (c :: l) = pr_rule3 l := by
  conv_lhs => unfold pr_rule3
  rw [if_neg hc]

theorem pr_rule3_skip (before l : Str) (h : '#' ∉ before) :
    pr_rule3 (before ++ l) = pr_rule3 l := by
  induction before with
  | nil => rfl
  | cons c t ih =>
    have hc : ¬ c = '#' := fun hcs => h (hcs ▸ List.mem_cons_self c t)
    rw [List.cons_append, pr_rule3_cons_ne c _ hc]
    exact ih (fun hm => h (List.mem_cons_of_mem _ hm))

theorem takeWhile_digits (ds after : Str) (h2 : ds.all Char.isDigit = true)
    (hafter : ∀ c, after.head? = some c → c.isDigit = false) :
    (ds ++ after).takeWhile Char.isDigit = ds := by
  induction ds with
  | nil =>
    cases after with
    | nil => rfl
    | cons a t =>
      simp [List.takeWhile_cons, hafter a rfl]
  | cons d dt ih =>
    have hd : d.isDigit = true := List.all_eq_true.mp h2 d
      (List.mem_cons_self d dt)
    rw [List.cons_append, List.takeWhile_cons, if_pos hd,
      ih (List.all_eq_true.mpr
        (fun x hx => List.all_eq_true.mp h2 x (List.mem_cons_of_mem _ hx)))]

theorem pr_rule3_hit (ds after : Str) (h1 : ds ≠ [])
    (h2 : ds.all Char.isDigit = true)
    (h3 : (digitsToNat ds : Int) ≤ 2 ^ 31 - 1)
    (hafter : ∀ c, after.head? = some c → c.isDigit = false) :
    pr_rule3 ('#' :: (ds ++ after)) = some ((digitsToNat ds : Int)) := by
  unfold pr_rule3
  rw [if_pos rfl]
  dsimp only
  rw [takeWhile_digits ds after h2 hafter]
  rw [if_pos (by simpa using h1), parse_i32_digits ds h1 h2 h3]

/-- Claim C2: pull-request extraction tries three rules in order with first
success winning: (1) a "Merge pull request #digits space" prefix yields the
number with the text after an optional "from " as title; (2) otherwise the
first "(#digits)" token yields the number with the trimmed text before the
parenthesis as title, empty text giving an absent title; (3) otherwise the
first standalone "#digits" run yields the number with no title; (4) otherwise
both absent.  A digit run that fails i32 parsing is a no-match falling
through to the next rule.  Includes the four sample subjects of the spec. -/
theorem parse_pr_info_spec :
    (parse_pr_info "Merge pull request #123 from alice/feature-x".data =
      (some 123, some "alice/feature-x".data)) ∧
    (parse_pr_info "Fix bug (#456)".data = (some 456, some "Fix bug".data)) ∧
    (parse_pr_info "See issue #789 for details".data = (some 789, none)) ∧
    (parse_pr_info "No reference here".data = (none, none)) ∧
    (parse_pr_info "(#456)".data = (some 456, none)) ∧
    (parse_pr_info "Merge pull request #99999999999 (#456)".data =
      (some 456, some "Merge pull request #99999999999".data)) ∧
    (∀ ds tail, ds ≠ [] → ds.all Char.isDigit = true →
      (digitsToNat ds : Int) ≤ 2 ^ 31 - 1 →
      parse_pr_info ("Merge pull request #".data ++
        (ds ++ ' ' :: ("from ".data ++ tail))) =
        (some ((digitsToNat ds : Int)), some tail)) ∧
    (∀ ds tail, ds ≠ [] → ds.all Char.isDigit = true →
      (digitsToNat ds : Int) ≤ 2 ^ 31 - 1 → ¬ "from ".data <+: tail →
      parse_pr_info ("Merge pull request #".data ++ (ds ++ ' ' :: tail)) =
        (some ((digitsToNat ds : Int)), some tail)) ∧
    (∀ before ds after,
      ¬ "Merge pull request #".data <+:
        (before ++ '(' :: '#' :: (ds ++ ')' :: after)) →
      findSub "(#".data (before ++ '(' :: '#' :: (ds ++ ')' :: after)) =
        some before.length →
      ds ≠ [] → ds.all Char.isDigit = true →
      (digitsToNat ds : Int) ≤ 2 ^ 31 - 1 →
      parse_pr_info (before ++ '(' :: '#' :: (ds ++ ')' :: after)) =
        (some ((digitsToNat ds : Int)),
          if trimChars before = [] then none
          else some (trimChars before))) ∧
    (∀ before ds after,
      ¬ "Merge pull request #".data <+: (before ++ '#' :: (ds ++ after)) →
      findSub "(#".data (before ++ '#' :: (ds ++ after)) = none →
      '#' ∉ before → ds ≠ [] → ds.all Char.isDigit = true →
      (digitsToNat ds : Int) ≤ 2 ^ 31 - 1 →
      (∀ c, after.head? = some c → c.isDigit = false) →
      parse_pr_info (before ++ '#' :: (ds ++ after)) =
        (some ((digitsToNat ds : Int)), none)) := by
  refine ⟨by decide, by decide, by decide, by decide, by decide, by decide,
    ?_, ?_, ?_, ?_⟩
  · intro ds tail h1 h2 h3
    unfold parse_pr_info
    rw [pr_rule1_match ds ("from ".data ++ tail) h1 h2 h3, stripPre_append]
    rfl
  · intro ds tail h1 h2 h3 hnf
    unfold parse_pr_info
    rw [pr_rule1_match ds tail h1 h2 h3]
    have hsp : stripPre "from ".data tail = none := by
      unfold stripPre
      rw [if_neg (fun hp => hnf (List.isPrefixOf_iff_prefix.mp hp))]
    rw [hsp]
    rfl
  · intro before ds after hnp1 hfind h1 h2 h3
    unfold parse_pr_info
    rw [pr_rule1_none _ hnp1, pr_rule2_match before ds after hfind h1 h2 h3]
  · intro before ds after hnp1 hfindnone hnb h1 h2 h3 hafter
    unfold parse_pr_info
    rw [pr_rule1_none _ hnp1, pr_rule2_none _ hfindnone,
      pr_rule3_skip before ('#' :: (ds ++ after)) hnb,
      pr_rule3_hit ds after h1 h2 h3 hafter]

/-- Claim C2 witness: the general rules of `parse_pr_info_spec` instantiated
at concrete subjects. -/
theorem parse_pr_info_spec_check :
    parse_pr_info ("Merge pull request #".data ++
      ("42".data ++ ' ' :: ("from ".data ++ "x/y".data))) =
      (some ((digitsToNat "42".data : Int)), some "x/y".data) ∧
    parse_pr_info ("ok ".data ++ '(' :: '#' :: ("7".data ++ ')' :: [])) =
      (some ((digitsToNat "7".data : Int)),
        if trimChars "ok ".data = [] then none
        else some (trimChars "ok ".data)) ∧
    parse_pr_info ("see ".data ++ '#' :: ("7".data ++ " ok".data)) =
      (some ((digitsToNat "7".data : Int)), none) :=
  ⟨parse_pr_info_spec.2.2.2.2.2.2.1 "42".data "x/y".data (by decide)
      (by decide) (by decide),
   parse_pr_info_spec.2.2.2.2.2.2.2.2.1 "ok ".data "7".data [] (by decide)
      (by decide) (by decide) (by decide) (by decide),
   parse_pr_info_spec.2.2.2.2.2.2.2.2.2 "see ".data "7".data " ok".data
      (by decide) (by decide) (by decide) (by decide) (by decide)
      (by decide) (by decide)⟩
